import Mathlib

/-!
Shallow embedding of the routing and stateful-cycling core of the
`quad-cortex-control` repository (files `midi_controller/messages.py`,
`midi_controller/cycle.py`, `midi_controller/broker.py`,
`midi_controller/config.py`, `midi_controller/actions/base.py`),
together with proofs of the claims about it.

Python integers are modelled as `Int` (`Nat` where the source value is a
list length), Python `str` as `String`, Python `dict` as an association
list with first-match lookup and in-place update, and a Python function
that may raise as a Lean function returning `Except String Unit`.
-/

set_option autoImplicit false

namespace QuadCortex

/-! ### Decimal rendering of integers

Models Python's `str(int)` as used by the f-strings in
`match_rule_signature` (`f"ch{rule.channel}"` etc.): base-10 digits,
most significant first, with a leading `-` for negative numbers. -/

/-- The ten decimal digit characters; argument k yields the digit for k < 10. -/
def digitChar (n : Nat) : Char :=
  if n = 0 then '0' else if n = 1 then '1' else if n = 2 then '2'
  else if n = 3 then '3' else if n = 4 then '4' else if n = 5 then '5'
  else if n = 6 then '6' else if n = 7 then '7' else if n = 8 then '8'
  else '9'

/-- Fuelled helper for `natDigits`; the fuel only forces structural
termination and never runs out when it starts at `n + 1`. -/
def natDigitsGo (fuel n : Nat) : List Char :=
  match fuel with
  | 0 => []
  | fuel + 1 =>
    if n < 10 then [digitChar n]
    else natDigitsGo fuel (n / 10) ++ [digitChar (n % 10)]

/-- Decimal digit characters of a natural number, most significant first. -/
def natDigits (n : Nat) : List Char := natDigitsGo (n + 1) n

theorem natDigitsGo_congr :
    ∀ (f1 f2 n : Nat), n < f1 → n < f2 → natDigitsGo f1 n = natDigitsGo f2 n := by
  intro f1
  induction f1 with
  | zero => omega
  | succ f ih =>
    intro f2 n h1 h2
    cases f2 with
    | zero => omega
    | succ f2' =>
      by_cases h : n < 10
      · simp [natDigitsGo, h]
      · simp only [natDigitsGo, h, if_neg, ite_false]
        rw [ih f2' (n / 10) (by omega) (by omega)]

/-- Characters of Python's `str(i)` for an integer `i`. -/
def intChars (i : Int) : List Char :=
  if i < 0 then '-' :: natDigits i.natAbs else natDigits i.toNat

/-- Python's `str(i)` for an integer `i`, as a Lean string. -/
def intStr (i : Int) : String := ⟨intChars i⟩

/-- Python's `sep.join(parts)`. -/
def strJoin (sep : String) : List String → String
  | [] => ""
  | [p] => p
  | p :: ps => p ++ sep ++ strJoin sep ps

/-! ### Event model (`midi_controller/messages.py`)

The five typed MIDI message dataclasses plus the `UnknownMessage`
fallback, collapsed into one tagged variant type. -/

inductive MidiMessage where
  | controlChange (channel : Int) (control : Int) (value : Int)
  | noteOn (channel : Int) (note : Int) (velocity : Int)
  | noteOff (channel : Int) (note : Int) (velocity : Int)
  | programChange (channel : Int) (program : Int)
  | pitchWheel (channel : Int) (pitch : Int)
  | unknown
deriving DecidableEq, Repr

/-- The `channel` attribute shared by all typed messages.  `unknown`
has no channel in the source; the value here is never consulted because
`matches_message` rejects unknown messages before reading the channel. -/
def MidiMessage.channel : MidiMessage → Int
  | .controlChange c _ _ => c
  | .noteOn c _ _ => c
  | .noteOff c _ _ => c
  | .programChange c _ => c
  | .pitchWheel c _ => c
  | .unknown => 0

/-! ### Match rules (`midi_controller/config.py`, class `MatchRule`) -/

structure MatchRule where
  type : String
  channel : Option Int := none
  control : Option Int := none
  note : Option Int := none
  program : Option Int := none
  value_min : Option Int := none
  value_max : Option Int := none
  velocity_min : Option Int := none
  velocity_max : Option Int := none
deriving DecidableEq, Repr

/-! ### Rule evaluation (`midi_controller/broker.py`) -/

/-- Signature string for a match rule (`match_rule_signature`): the
rule's `type`, then a `ch`/`cc`/`n`/`p` tag for each optional field that
is set, joined with `_`. -/
def match_rule_signature (rule : MatchRule) : String :=
  let parts := [rule.type]
  let parts := parts ++ (match rule.channel with
    | some c => ["ch" ++ intStr c] | none => [])
  let parts := parts ++ (match rule.control with
    | some c => ["cc" ++ intStr c] | none => [])
  let parts := parts ++ (match rule.note with
    | some n => ["n" ++ intStr n] | none => [])
  let parts := parts ++ (match rule.program with
    | some p => ["p" ++ intStr p] | none => [])
  strJoin "_" parts

/-- The `type_map` dictionary of `matches_message`, as the predicate
"`msg` is an instance of the class that `ruleType` maps to".  A rule
type outside the table maps to no class, so nothing matches it. -/
def typeMatches (ruleType : String) (msg : MidiMessage) : Bool :=
  match msg with
  | .controlChange .. => ruleType = "control_change"
  | .noteOn .. => ruleType = "note_on"
  | .noteOff .. => ruleType = "note_off"
  | .programChange .. => ruleType = "program_change"
  | .pitchWheel .. => ruleType = "pitchwheel"
  | .unknown => false

/-- Models `rule.x_min is not None and v < rule.x_min` from the range
checks of `matches_message`. -/
def belowOpt (lo : Option Int) (v : Int) : Bool :=
  match lo with
  | some l => decide (v < l)
  | none => false

/-- Models `rule.x_max is not None and rule.x_max < v` from the range
checks of `matches_message`. -/
def aboveOpt (hi : Option Int) (v : Int) : Bool :=
  match hi with
  | some h => decide (h < v)
  | none => false

/-- Check whether a MIDI message matches a rule (`matches_message`). -/
def matches_message (rule : MatchRule) (msg : MidiMessage) : Bool :=
  -- Check message type
  if !typeMatches rule.type msg then false
  -- Check channel (None means match any)
  else if rule.channel.isSome && !(msg.channel = rule.channel.getD 0) then false
  else
    -- Type-specific checks
    match msg with
    | .controlChange _ control value =>
      if rule.control.isSome && !(control = rule.control.getD 0) then false
      -- Check value range
      else if belowOpt rule.value_min value then false
      else if aboveOpt rule.value_max value then false
      else true
    | .noteOn _ note velocity | .noteOff _ note velocity =>
      if rule.note.isSome && !(note = rule.note.getD 0) then false
      -- Check velocity range
      else if belowOpt rule.velocity_min velocity then false
      else if aboveOpt rule.velocity_max velocity then false
      else true
    | .programChange _ program =>
      if rule.program.isSome && !(program = rule.program.getD 0) then false
      else true
    | .pitchWheel _ _ => true
    | .unknown => true

/-! ### Association lists

Model of Python `dict`: first-match lookup, in-place update of an
existing key, append of a fresh key. -/

/-- Python `d.get(k)` / `k in d`. -/
def assocFind {α β : Type} [DecidableEq α] (l : List (α × β)) (k : α) : Option β :=
  match l with
  | [] => none
  | (k', v) :: rest => if k' = k then some v else assocFind rest k

/-- Python `d[k] = v`. -/
def assocSet {α β : Type} [DecidableEq α] (l : List (α × β)) (k : α) (v : β) :
    List (α × β) :=
  match l with
  | [] => [(k, v)]
  | (k', v') :: rest => if k' = k then (k, v) :: rest else (k', v') :: assocSet rest k v

/-! ### Cycle state (`midi_controller/cycle.py`) -/

/-- Unique key for cycle state (`CycleKey`). -/
structure CycleKey where
  device : String
  match_signature : String
deriving DecidableEq, Repr

/-- Mutable cycling state (`CycleManager`): stored index per key plus the
globally last-used key. -/
structure CycleManager where
  indices : List (CycleKey × Nat) := []
  last_key : Option CycleKey := none
deriving DecidableEq, Repr

/-- `CycleManager.get_index`, in state-passing style: returns the index
to use and the updated manager.  `preset_count` is a `Nat` because every
call site passes `len(presets)`. -/
def CycleManager.get_index (m : CycleManager) (key : CycleKey) (preset_count : Nat) :
    Nat × CycleManager :=
  if preset_count = 0 then
    (0, m)
  else
    -- if key not in self.indices: self.indices[key] = 0
    let indices0 := if (assocFind m.indices key).isSome then m.indices
                    else assocSet m.indices key 0
    -- Advance if same key pressed consecutively
    let indices1 := if m.last_key = some key then
                      assocSet indices0 key
                        (((assocFind indices0 key).getD 0 + 1) % preset_count)
                    else indices0
    -- self.last_key = key; return self.indices[key]
    -- (the key is present at this point, so the `getD` default is never used)
    ((assocFind indices1 key).getD 0, { indices := indices1, last_key := some key })

/-- `CycleManager.reset`. -/
def CycleManager.reset (m : CycleManager) (key : CycleKey) : CycleManager :=
  { m with indices := m.indices.filter (fun p => !(p.1 = key)) }

/-- `CycleManager.clear`. -/
def CycleManager.clear (_ : CycleManager) : CycleManager :=
  { indices := [], last_key := none }

/-! ### Parameters and actions (`config.py`, `actions/base.py`) -/

/-- A YAML-derived parameter value, as stored in `MappingEntry.params`. -/
inductive ParamValue where
  | str (s : String)
  | int (i : Int)
  | bool (b : Bool)
  | list (l : List ParamValue)

/-- A `MappingEntry` from `midi_controller/config.py`.  The source field
`match` is a Lean keyword, hence the guillemets. -/
structure MappingEntry where
  «match» : MatchRule
  action : String
  params : List (String × ParamValue) := []
  cycle : Bool := false

/-- `ActionContext` from `midi_controller/actions/base.py`.  The
`HAClient | None` handle is opaque to the core and modelled as
`Option Unit`. -/
structure ActionContext where
  ha : Option Unit
  message : MidiMessage
  device_name : String
  cycle_index : Option Nat := none
  preset_value : Option ParamValue := none

/-- An action function from the registry: it may raise, modelled as
`Except.error` carrying the exception text.  The second argument models
the `**params` keyword arguments. -/
def ActionFunc : Type := ActionContext → List (String × ParamValue) → Except String Unit

/-! ### Message broker (`midi_controller/broker.py`) -/

/-- One observable side effect of `MessageBroker.handle`: either a
diagnostic `print` or the invocation of an action function. -/
inductive LogEvent where
  | printMessage (device : String) (message : MidiMessage)
  | unknownAction (action : String)
  | actionInvoked (action : String) (ctx : ActionContext) (params : List (String × ParamValue))
  | actionError (action : String) (err : String)

structure MessageBroker where
  actions : List (String × ActionFunc)
  mappings : List (String × List MappingEntry)
  ha_client : Option Unit
  cycle_manager : CycleManager

/-- `mapping.params.get("presets", [])`.  Config loading
(`resolve_preset_reference`) only ever stores a list under `"presets"`,
so a non-list value is outside the modelled states and treated as the
empty (falsy) default. -/
def getPresets (params : List (String × ParamValue)) : List ParamValue :=
  match assocFind params "presets" with
  | some (ParamValue.list l) => l
  | _ => []

/-- The `try: action_func(ctx, **params) except Exception` tail of
`_invoke_action`: the action runs, and a raised exception is caught and
diagnosed with the action name. -/
def runAction (action : String) (action_func : ActionFunc) (ctx : ActionContext)
    (params : List (String × ParamValue)) : List LogEvent :=
  match action_func ctx params with
  | Except.ok _ => [LogEvent.actionInvoked action ctx params]
  | Except.error e =>
    [LogEvent.actionInvoked action ctx params, LogEvent.actionError action e]

/-- `MessageBroker._invoke_action`, in state-passing style: the emitted
log events, the updated cycle manager, and `some "IndexError"` when an
uncaught exception escapes.  `preset_value = presets[cycle_index]` sits
outside the `try` block, so when the stored cycle index is out of range
for this entry's preset list (reachable when two cycling entries share a
cycle key — ranges are excluded from signatures — but have different
preset counts) the `IndexError` escapes before the context is built or
the action invoked, with the cycle manager already advanced in place. -/
def MessageBroker.invoke_action (b : MessageBroker) (device_name : String)
    (message : MidiMessage) (mapping : MappingEntry) :
    List LogEvent × CycleManager × Option String :=
  match assocFind b.actions mapping.action with
  | none => ([LogEvent.unknownAction mapping.action], b.cycle_manager, none)
  | some action_func =>
    -- Handle cycling
    if mapping.cycle then
      let presets := getPresets mapping.params
      if !presets.isEmpty then
        let key : CycleKey :=
          { device := device_name,
            match_signature := match_rule_signature mapping.«match» }
        let r := b.cycle_manager.get_index key presets.length
        match presets.get? r.1 with
        | none =>
          -- preset_value = presets[cycle_index] raises, uncaught
          ([], r.2, some "IndexError")
        | some v =>
          (runAction mapping.action action_func
            { ha := b.ha_client, message := message, device_name := device_name,
              cycle_index := some r.1, preset_value := some v }
            (mapping.params.filter (fun p => !(p.1 = "presets"))), r.2, none)
      else
        (runAction mapping.action action_func
          { ha := b.ha_client, message := message, device_name := device_name,
            cycle_index := none, preset_value := none }
          (mapping.params.filter (fun p => !(p.1 = "presets"))),
         b.cycle_manager, none)
    else
      (runAction mapping.action action_func
        { ha := b.ha_client, message := message, device_name := device_name,
          cycle_index := none, preset_value := none }
        (mapping.params.filter (fun p => !(p.1 = "presets"))),
       b.cycle_manager, none)

/-- The `for mapping in device_mappings + global_mappings` loop of
`MessageBroker.handle`, over an explicit list of mapping entries.  An
uncaught exception from an entry aborts the loop: the remaining entries
are not evaluated and the exception is propagated. -/
def MessageBroker.handleLoop (b : MessageBroker) (device_name : String)
    (message : MidiMessage) :
    List MappingEntry → List LogEvent × MessageBroker × Option String
  | [] => ([], b, none)
  | mapping :: rest =>
    if matches_message mapping.«match» message then
      let r := b.invoke_action device_name message mapping
      let b' : MessageBroker := { b with cycle_manager := r.2.1 }
      match r.2.2 with
      | some e => (r.1, b', some e)
      | none =>
        let tail := b'.handleLoop device_name message rest
        (r.1 ++ tail.1, tail.2)
    else
      b.handleLoop device_name message rest

/-- `MessageBroker.handle`: print the message, then run every applicable
mapping (device-specific list followed by the `"global"` list); an
uncaught exception from the loop escapes `handle` as the third
component. -/
def MessageBroker.handle (b : MessageBroker) (device_name : String)
    (message : MidiMessage) : List LogEvent × MessageBroker × Option String :=
  let device_mappings := (assocFind b.mappings device_name).getD []
  let global_mappings := (assocFind b.mappings "global").getD []
  let r := b.handleLoop device_name message (device_mappings ++ global_mappings)
  (LogEvent.printMessage device_name message :: r.1, r.2)

/-! ### Auxiliary definitions used by the theorems -/

/-- Run a sequence of `get_index` calls from a starting state, returning
the list of returned indices. -/
def runCycle (m : CycleManager) : List (CycleKey × Nat) → List Nat
  | [] => []
  | (k, n) :: rest =>
    let r := m.get_index k n
    r.1 :: runCycle r.2 rest

/-- The event kind of a message: the `type_map` name of its class, or
`none` for the unrecognized fallback. -/
def kindOf : MidiMessage → Option String
  | .controlChange .. => some "control_change"
  | .noteOn .. => some "note_on"
  | .noteOff .. => some "note_off"
  | .programChange .. => some "program_change"
  | .pitchWheel .. => some "pitchwheel"
  | .unknown => none

/-! ### Claims about the cycle tracker -/

/-- C8: `get_index(K, 0)` returns 0 and leaves the manager — stored
indices and `last_key` alike — exactly as it was. -/
theorem get_index_zero_count_noop (m : CycleManager) (K : CycleKey) :
    m.get_index K 0 = (0, m) := by
  simp [CycleManager.get_index]

/-- C1: from a fresh manager, four consecutive `get_index(K, 3)` calls
return 0, 1, 2, 0; and for distinct keys K ≠ J the sequence
`get_index(K,3)`, `get_index(J,5)`, `get_index(K,3)` returns 0, 0, 0:
the intervening J call prevents the second K call from advancing while
K's stored index is preserved. -/
theorem cycle_consecutive_and_interruption (K J : CycleKey) (h : K ≠ J) :
    runCycle {} [(K, 3), (K, 3), (K, 3), (K, 3)] = [0, 1, 2, 0] ∧
    runCycle {} [(K, 3), (J, 5), (K, 3)] = [0, 0, 0] := by
  constructor <;>
    simp [runCycle, CycleManager.get_index, assocFind, assocSet, h, Ne.symm h]

theorem cycle_consecutive_and_interruption_witness :
    (⟨"dev", "sigA"⟩ : CycleKey) ≠ (⟨"dev", "sigB"⟩ : CycleKey) ∧
    (runCycle {} [(⟨"dev", "sigA"⟩, 3), (⟨"dev", "sigA"⟩, 3),
        (⟨"dev", "sigA"⟩, 3), (⟨"dev", "sigA"⟩, 3)] = [0, 1, 2, 0] ∧
     runCycle {} [(⟨"dev", "sigA"⟩, 3), (⟨"dev", "sigB"⟩, 5),
        (⟨"dev", "sigA"⟩, 3)] = [0, 0, 0]) :=
  ⟨by decide, cycle_consecutive_and_interruption _ _ (by decide)⟩

/-! ### Claims about rule matching -/

/-- C6: on a control-change rule whose type, channel and control
constraints are satisfied, `value_min = a`, `value_max = b` admit
exactly the events with `a ≤ value ≤ b`; and when `a > b` the rule
matches no message at all. -/
theorem value_range_semantics (r : MatchRule) (a b : Int)
    (htype : r.type = "control_change")
    (hmin : r.value_min = some a) (hmax : r.value_max = some b) :
    (∀ ch ctl v : Int,
      r.channel = none ∨ r.channel = some ch →
      r.control = none ∨ r.control = some ctl →
      (matches_message r (MidiMessage.controlChange ch ctl v) = true ↔
        a ≤ v ∧ v ≤ b)) ∧
    (b < a → ∀ msg, matches_message r msg = false) := by
  constructor
  · intro ch ctl v hch hctl
    rcases hch with hch | hch <;> rcases hctl with hctl | hctl <;>
      simp [matches_message, typeMatches, MidiMessage.channel, htype, hmin, hmax,
        hch, hctl, belowOpt, aboveOpt] <;> omega
  · intro hba msg
    cases msg <;>
      simp [matches_message, typeMatches, htype, hmin, hmax, belowOpt, aboveOpt]
    · intro _ _ _
      omega

/-- Witness for C6 at a concrete rule and concrete events. -/
theorem value_range_semantics_witness :
    (({ type := "control_change", channel := some 1, control := some 7,
        value_min := some 10, value_max := some 20 } : MatchRule).type
        = "control_change") ∧
    ((∀ ch ctl v : Int,
      ({ type := "control_change", channel := some 1, control := some 7,
         value_min := some 10, value_max := some 20 } : MatchRule).channel = none ∨
        ({ type := "control_change", channel := some 1, control := some 7,
           value_min := some 10, value_max := some 20 } : MatchRule).channel = some ch →
      ({ type := "control_change", channel := some 1, control := some 7,
         value_min := some 10, value_max := some 20 } : MatchRule).control = none ∨
        ({ type := "control_change", channel := some 1, control := some 7,
           value_min := some 10, value_max := some 20 } : MatchRule).control = some ctl →
      (matches_message
          { type := "control_change", channel := some 1, control := some 7,
            value_min := some 10, value_max := some 20 }
          (MidiMessage.controlChange ch ctl v) = true ↔
        (10 : Int) ≤ v ∧ v ≤ 20)) ∧
     ((20 : Int) < 10 → ∀ msg,
        matches_message
          { type := "control_change", channel := some 1, control := some 7,
            value_min := some 10, value_max := some 20 } msg = false)) :=
  ⟨rfl, value_range_semantics _ 10 20 rfl rfl rfl⟩

/-- C7: a rule with only `type` set (every optional field unset), where
`type` names one of the five supported kinds, matches exactly the
messages of that kind — and no unrecognized message. -/
theorem wildcard_type_only_rule (r : MatchRule) (t : String)
    (ht : r.type = t)
    (hvalid : t = "control_change" ∨ t = "note_on" ∨ t = "note_off" ∨
      t = "program_change" ∨ t = "pitchwheel")
    (hch : r.channel = none) (hctl : r.control = none)
    (hn : r.note = none) (hp : r.program = none)
    (hvmin : r.value_min = none) (hvmax : r.value_max = none)
    (hwmin : r.velocity_min = none) (hwmax : r.velocity_max = none) :
    ∀ msg : MidiMessage, matches_message r msg = true ↔ kindOf msg = some t := by
  intro msg
  cases msg <;>
    simp [matches_message, typeMatches, kindOf, ht, hch, hctl, hn, hp,
      hvmin, hvmax, hwmin, hwmax, belowOpt, aboveOpt] <;>
    exact eq_comm

/-- Witness for C7: the wildcard note-on rule accepts a note-on message
and rejects a control-change message. -/
theorem wildcard_type_only_rule_witness :
    (({ type := "note_on" } : MatchRule).type = "note_on") ∧
    (∀ msg : MidiMessage,
      matches_message { type := "note_on" } msg = true ↔
        kindOf msg = some "note_on") ∧
    matches_message { type := "note_on" } (MidiMessage.noteOn 0 60 100) = true ∧
    matches_message { type := "note_on" } (MidiMessage.controlChange 0 7 1) = false ∧
    matches_message { type := "note_on" } MidiMessage.unknown = false :=
  ⟨rfl,
   wildcard_type_only_rule _ "note_on" rfl (Or.inr (Or.inl rfl))
     rfl rfl rfl rfl rfl rfl rfl rfl,
   by decide, by decide, by decide⟩

/-! ### Claims about the dispatcher -/

/-- C9: when a matched entry's action name is not in the registry, the
dispatcher emits the unknown-action diagnostic, leaves the cycle state
untouched, and goes on to process the remaining entries. -/
theorem unknown_action_skipped (b : MessageBroker) (dev : String)
    (msg : MidiMessage) (mp : MappingEntry) (rest : List MappingEntry)
    (habsent : assocFind b.actions mp.action = none)
    (hmatch : matches_message mp.«match» msg = true) :
    b.invoke_action dev msg mp =
      ([LogEvent.unknownAction mp.action], b.cycle_manager, none) ∧
    b.handleLoop dev msg (mp :: rest) =
      (LogEvent.unknownAction mp.action :: (b.handleLoop dev msg rest).1,
       (b.handleLoop dev msg rest).2) := by
  have hinv : b.invoke_action dev msg mp =
      ([LogEvent.unknownAction mp.action], b.cycle_manager, none) := by
    simp [MessageBroker.invoke_action, habsent]
  refine ⟨hinv, ?_⟩
  simp [MessageBroker.handleLoop, hmatch, hinv]

/-- Dispatch as the specification states it, amended for the uncaught
`IndexError`: invoke the bound action of every entry in the given list,
in order, threading the cycle state — unless an entry's preset lookup
raises, which stops the run there and propagates the exception.
Applied to the matching entries only, it is the fan-out semantics of
`handle`. -/
def fanoutDispatch (b : MessageBroker) (dev : String) (msg : MidiMessage) :
    List MappingEntry → List LogEvent × MessageBroker × Option String
  | [] => ([], b, none)
  | mp :: rest =>
    let r := b.invoke_action dev msg mp
    let b' : MessageBroker := { b with cycle_manager := r.2.1 }
    match r.2.2 with
    | some e => (r.1, b', some e)
    | none =>
      let tail := fanoutDispatch b' dev msg rest
      (r.1 ++ tail.1, tail.2)

/-- The dispatch loop runs exactly the matching entries, in order, and a
non-matching entry contributes nothing: no log event and no state
change. -/
theorem handleLoop_eq_fanout_filter (dev : String) (msg : MidiMessage) :
    ∀ (l : List MappingEntry) (b : MessageBroker),
      b.handleLoop dev msg l =
        fanoutDispatch b dev msg
          (l.filter (fun mp => matches_message mp.«match» msg)) := by
  intro l
  induction l with
  | nil => intro b; simp [MessageBroker.handleLoop, fanoutDispatch]
  | cons mp rest ih =>
    intro b
    by_cases hm : matches_message mp.«match» msg = true
    · simp [MessageBroker.handleLoop, List.filter_cons, hm, fanoutDispatch, ih]
    · simp only [Bool.not_eq_true] at hm
      simp [MessageBroker.handleLoop, List.filter_cons, hm, ih]

/-- C2, amended: `handle` prints the message, then evaluates the
device-specific mapping list followed by the `"global"` list; the
matching entries' actions are invoked in that order (fan-out) until, if
ever, a cycling entry's out-of-range preset lookup raises an uncaught
`IndexError`, which aborts dispatch of the remaining entries;
non-matching entries have no effect beyond the diagnostic print of the
event itself. -/
theorem handle_fanout_device_then_global (b : MessageBroker) (dev : String)
    (msg : MidiMessage) :
    b.handle dev msg =
      (LogEvent.printMessage dev msg ::
        (fanoutDispatch b dev msg
          ((((assocFind b.mappings dev).getD []) ++
              ((assocFind b.mappings "global").getD [])).filter
            (fun mp => matches_message mp.«match» msg))).1,
       (fanoutDispatch b dev msg
          ((((assocFind b.mappings dev).getD []) ++
              ((assocFind b.mappings "global").getD [])).filter
            (fun mp => matches_message mp.«match» msg))).2) := by
  simp [MessageBroker.handle, handleLoop_eq_fanout_filter]

/-- Every result of `_invoke_action` either returns normally or is the
uncaught `IndexError` from the preset lookup, raised before any action
ran: the escaping branch carries an empty event list. -/
theorem invoke_action_outcome_cases (b : MessageBroker) (dev : String)
    (msg : MidiMessage) (mp : MappingEntry) :
    (b.invoke_action dev msg mp).2.2 = none ∨
    b.invoke_action dev msg mp =
      ([], (b.invoke_action dev msg mp).2.1, some "IndexError") := by
  cases hfind : assocFind b.actions mp.action with
  | none => exact Or.inl (by simp [MessageBroker.invoke_action, hfind])
  | some f =>
    cases hcyc : mp.cycle
    · exact Or.inl (by simp [MessageBroker.invoke_action, hfind, hcyc])
    · cases hpre : (getPresets mp.params).isEmpty
      · cases hg : (getPresets mp.params).get?
            (b.cycle_manager.get_index
              ⟨dev, match_rule_signature mp.«match»⟩
              (getPresets mp.params).length).1 with
        | none =>
          rw [List.get?_eq_getElem?] at hg
          exact Or.inr (by simp [MessageBroker.invoke_action, hfind, hcyc, hpre, hg])
        | some v =>
          rw [List.get?_eq_getElem?] at hg
          exact Or.inl (by simp [MessageBroker.invoke_action, hfind, hcyc, hpre, hg])
      · exact Or.inl (by simp [MessageBroker.invoke_action, hfind, hcyc, hpre])

/-- When the lookup found an action and no uncaught exception arose, the
dispatch of the entry reached the guarded action call. -/
theorem invoke_action_reached (b : MessageBroker) (dev : String)
    (msg : MidiMessage) (mp : MappingEntry) (f : ActionFunc)
    (hf : assocFind b.actions mp.action = some f)
    (hnone : (b.invoke_action dev msg mp).2.2 = none) :
    ∃ ctx, b.invoke_action dev msg mp =
      (runAction mp.action f ctx (mp.params.filter (fun p => !(p.1 = "presets"))),
       (b.invoke_action dev msg mp).2.1, none) := by
  cases hcyc : mp.cycle
  · refine ⟨{ ha := b.ha_client, message := msg, device_name := dev,
              cycle_index := none, preset_value := none }, ?_⟩
    simp [MessageBroker.invoke_action, hf, hcyc]
  · cases hpre : (getPresets mp.params).isEmpty
    · cases hg : (getPresets mp.params).get?
          (b.cycle_manager.get_index
            ⟨dev, match_rule_signature mp.«match»⟩
            (getPresets mp.params).length).1 with
      | none =>
        exfalso
        rw [List.get?_eq_getElem?] at hg
        simp [MessageBroker.invoke_action, hf, hcyc, hpre, hg] at hnone
      | some v =>
        refine ⟨{ ha := b.ha_client, message := msg, device_name := dev,
                  cycle_index := some (b.cycle_manager.get_index
                    ⟨dev, match_rule_signature mp.«match»⟩
                    (getPresets mp.params).length).1,
                  preset_value := some v }, ?_⟩
        rw [List.get?_eq_getElem?] at hg
        simp [MessageBroker.invoke_action, hf, hcyc, hpre, hg]
    · refine ⟨{ ha := b.ha_client, message := msg, device_name := dev,
                cycle_index := none, preset_value := none }, ?_⟩
      simp [MessageBroker.invoke_action, hf, hcyc, hpre]

/-- C3: when a reached action raises, the entry produces the invocation
record followed by the error diagnostic naming the action — the
exception is caught rather than propagated — dispatch continues to the
remaining entries exactly as for a succeeding action, and in general the
only exception that ever escapes the dispatch of an entry is the internal
`IndexError` raised before its action ran, never an exception of the
invoked (downstream) action. -/
theorem action_error_contained (b : MessageBroker) (dev : String)
    (msg : MidiMessage) (mp : MappingEntry) (rest : List MappingEntry)
    (f : ActionFunc) (e : String)
    (hf : assocFind b.actions mp.action = some f)
    (hraise : ∀ ctx params, f ctx params = Except.error e)
    (hmatch : matches_message mp.«match» msg = true)
    (hreach : (b.invoke_action dev msg mp).2.2 = none) :
    (∃ ctx params, (b.invoke_action dev msg mp).1 =
      [LogEvent.actionInvoked mp.action ctx params,
       LogEvent.actionError mp.action e]) ∧
    b.handleLoop dev msg (mp :: rest) =
      ((b.invoke_action dev msg mp).1 ++
        (({ b with cycle_manager := (b.invoke_action dev msg mp).2.1 }).handleLoop
          dev msg rest).1,
       (({ b with cycle_manager := (b.invoke_action dev msg mp).2.1 }).handleLoop
          dev msg rest).2) ∧
    (∀ (b2 : MessageBroker) (dev2 : String) (msg2 : MidiMessage)
       (mp2 : MappingEntry) (e2 : String),
       (b2.invoke_action dev2 msg2 mp2).2.2 = some e2 →
       e2 = "IndexError" ∧ (b2.invoke_action dev2 msg2 mp2).1 = []) := by
  refine ⟨?_, ?_, ?_⟩
  · obtain ⟨ctx, heq⟩ := invoke_action_reached b dev msg mp f hf hreach
    refine ⟨ctx, mp.params.filter (fun p => !(p.1 = "presets")), ?_⟩
    rw [heq]
    simp [runAction, hraise]
  · simp [MessageBroker.handleLoop, hmatch, hreach]
  · intro b2 dev2 msg2 mp2 e2 h
    rcases invoke_action_outcome_cases b2 dev2 msg2 mp2 with hc | hc
    · rw [hc] at h
      exact Option.noConfusion h
    · rw [hc] at h
      simp at h
      rw [hc]
      exact ⟨h.symm, rfl⟩

/-! ### Concrete fixtures used by the witnesses -/

/-- Entry bound to an action name missing from the registry. -/
def mpGhost : MappingEntry :=
  { «match» := { type := "note_on" }, action := "nonexistent" }

/-- Entry bound to a registered, succeeding action. -/
def mpOk2 : MappingEntry :=
  { «match» := { type := "note_on" }, action := "ok2" }

/-- Broker whose first entry names an unregistered action. -/
def brokerGhost : MessageBroker :=
  { actions := [("ok2", fun _ _ => Except.ok ())],
    mappings := [("dev", [mpGhost, mpOk2])],
    ha_client := none, cycle_manager := {} }

/-- Witness for C9: the unknown-action entry produces only the warning
and the following entry is still dispatched. -/
theorem unknown_action_skipped_witness :
    assocFind brokerGhost.actions mpGhost.action = none ∧
    matches_message mpGhost.«match» (MidiMessage.noteOn 0 60 100) = true ∧
    (brokerGhost.invoke_action "dev" (MidiMessage.noteOn 0 60 100) mpGhost =
        ([LogEvent.unknownAction mpGhost.action], brokerGhost.cycle_manager, none) ∧
     brokerGhost.handleLoop "dev" (MidiMessage.noteOn 0 60 100) (mpGhost :: [mpOk2]) =
        (LogEvent.unknownAction mpGhost.action ::
          (brokerGhost.handleLoop "dev" (MidiMessage.noteOn 0 60 100) [mpOk2]).1,
         (brokerGhost.handleLoop "dev" (MidiMessage.noteOn 0 60 100) [mpOk2]).2)) :=
  ⟨rfl, rfl,
   unknown_action_skipped brokerGhost "dev" (MidiMessage.noteOn 0 60 100)
     mpGhost [mpOk2] rfl rfl⟩

/-- A note-on message used as a concrete event. -/
def nOn : MidiMessage := MidiMessage.noteOn 0 60 100

/-- A wildcard note-on rule. -/
def ruleNoteOn : MatchRule := { type := "note_on" }

/-- An action that raises on every invocation. -/
def raisingAction : ActionFunc := fun _ _ => Except.error "kaboom"

/-- An action that always succeeds. -/
def okAction : ActionFunc := fun _ _ => Except.ok ()

/-- Device-mapping entry bound to the raising action. -/
def mpBoom : MappingEntry := { «match» := ruleNoteOn, action := "boom" }

/-- Global-mapping entry bound to the succeeding action. -/
def mpOk : MappingEntry := { «match» := ruleNoteOn, action := "ok" }

/-- Broker whose device list holds the raising entry and whose global
list holds a second matching entry. -/
def brokerBoom : MessageBroker :=
  { actions := [("boom", raisingAction), ("ok", okAction)],
    mappings := [("dev", [mpBoom]), ("global", [mpOk])],
    ha_client := none, cycle_manager := {} }

/-- Witness for C3: in `brokerBoom`, the raising action is reached, its
error is caught and diagnosed, and the second (global) matching entry
still runs. -/
theorem action_error_contained_witness :
    assocFind brokerBoom.actions mpBoom.action = some raisingAction ∧
    (∀ ctx params, raisingAction ctx params = Except.error "kaboom") ∧
    matches_message mpBoom.«match» nOn = true ∧
    (brokerBoom.invoke_action "dev" nOn mpBoom).2.2 = none ∧
    ((∃ ctx params, (brokerBoom.invoke_action "dev" nOn mpBoom).1 =
        [LogEvent.actionInvoked mpBoom.action ctx params,
         LogEvent.actionError mpBoom.action "kaboom"]) ∧
      brokerBoom.handleLoop "dev" nOn (mpBoom :: [mpOk]) =
        ((brokerBoom.invoke_action "dev" nOn mpBoom).1 ++
          (({ brokerBoom with
              cycle_manager :=
                (brokerBoom.invoke_action "dev" nOn mpBoom).2.1 }).handleLoop
            "dev" nOn [mpOk]).1,
         (({ brokerBoom with
             cycle_manager :=
               (brokerBoom.invoke_action "dev" nOn mpBoom).2.1 }).handleLoop
            "dev" nOn [mpOk]).2) ∧
      (∀ (b2 : MessageBroker) (dev2 : String) (msg2 : MidiMessage)
         (mp2 : MappingEntry) (e2 : String),
         (b2.invoke_action dev2 msg2 mp2).2.2 = some e2 →
         e2 = "IndexError" ∧ (b2.invoke_action dev2 msg2 mp2).1 = [])) :=
  ⟨rfl, fun _ _ => rfl, rfl, rfl,
   action_error_contained brokerBoom "dev" nOn mpBoom [mpOk] raisingAction
     "kaboom" rfl (fun _ _ => rfl) rfl rfl⟩

/-- C5, amended: on a matched cycling entry with a non-empty preset
list, the dispatcher derives the cycle key from the device name and the
rule signature and advances the tracker with the preset count; when the
returned index is within range it hands the action that index together
with `presets[index]`, but when the stored index is out of range
(reachable when two cycling entries share a cycle key with different
preset counts) the lookup raises an uncaught `IndexError` and the action
is not invoked; with an empty preset list the action runs with no index
and no preset value and the cycle state is untouched. -/
theorem invoke_action_cycling_selection (b : MessageBroker) (dev : String)
    (msg : MidiMessage) (mp : MappingEntry) (f : ActionFunc)
    (hf : assocFind b.actions mp.action = some f)
    (hcycle : mp.cycle = true) :
    (∀ v, getPresets mp.params ≠ [] →
      (getPresets mp.params).get?
        (b.cycle_manager.get_index ⟨dev, match_rule_signature mp.«match»⟩
          (getPresets mp.params).length).1 = some v →
      b.invoke_action dev msg mp =
        (runAction mp.action f
          { ha := b.ha_client, message := msg, device_name := dev,
            cycle_index := some (b.cycle_manager.get_index
              ⟨dev, match_rule_signature mp.«match»⟩
              (getPresets mp.params).length).1,
            preset_value := some v }
          (mp.params.filter (fun p => !(p.1 = "presets"))),
         (b.cycle_manager.get_index ⟨dev, match_rule_signature mp.«match»⟩
           (getPresets mp.params).length).2,
         none)) ∧
    (getPresets mp.params ≠ [] →
      (getPresets mp.params).get?
        (b.cycle_manager.get_index ⟨dev, match_rule_signature mp.«match»⟩
          (getPresets mp.params).length).1 = none →
      b.invoke_action dev msg mp =
        ([],
         (b.cycle_manager.get_index ⟨dev, match_rule_signature mp.«match»⟩
           (getPresets mp.params).length).2,
         some "IndexError")) ∧
    (getPresets mp.params = [] →
      b.invoke_action dev msg mp =
        (runAction mp.action f
          { ha := b.ha_client, message := msg, device_name := dev,
            cycle_index := none, preset_value := none }
          (mp.params.filter (fun p => !(p.1 = "presets"))),
         b.cycle_manager, none)) := by
  refine ⟨?_, ?_, ?_⟩
  · intro v hne hg
    have hempty : (getPresets mp.params).isEmpty = false := by
      cases hp : getPresets mp.params with
      | nil => exact absurd hp hne
      | cons a l => rfl
    rw [List.get?_eq_getElem?] at hg
    simp [MessageBroker.invoke_action, hf, hcycle, hempty, hg]
  · intro hne hg
    have hempty : (getPresets mp.params).isEmpty = false := by
      cases hp : getPresets mp.params with
      | nil => exact absurd hp hne
      | cons a l => rfl
    rw [List.get?_eq_getElem?] at hg
    simp [MessageBroker.invoke_action, hf, hcycle, hempty, hg]
  · intro hemp
    simp [MessageBroker.invoke_action, hf, hcycle, hemp]

/-- The three-preset cycling entry used to witness C5. -/
def mpCyc : MappingEntry :=
  { «match» := ruleNoteOn, action := "ok",
    params := [("presets",
        ParamValue.list [ParamValue.str "a", ParamValue.str "b", ParamValue.str "c"]),
      ("x", ParamValue.int 1)],
    cycle := true }

/-- Broker holding the cycling entry. -/
def brokerCyc : MessageBroker :=
  { actions := [("ok", okAction)], mappings := [("dev", [mpCyc])],
    ha_client := none, cycle_manager := {} }

/-- Witness for C5 at the concrete cycling broker. -/
theorem invoke_action_cycling_selection_witness :
    assocFind brokerCyc.actions mpCyc.action = some okAction ∧
    mpCyc.cycle = true ∧
    ((∀ v, getPresets mpCyc.params ≠ [] →
      (getPresets mpCyc.params).get?
        (brokerCyc.cycle_manager.get_index
          ⟨"dev", match_rule_signature mpCyc.«match»⟩
          (getPresets mpCyc.params).length).1 = some v →
      brokerCyc.invoke_action "dev" nOn mpCyc =
        (runAction mpCyc.action okAction
          { ha := brokerCyc.ha_client, message := nOn, device_name := "dev",
            cycle_index := some (brokerCyc.cycle_manager.get_index
              ⟨"dev", match_rule_signature mpCyc.«match»⟩
              (getPresets mpCyc.params).length).1,
            preset_value := some v }
          (mpCyc.params.filter (fun p => !(p.1 = "presets"))),
         (brokerCyc.cycle_manager.get_index
           ⟨"dev", match_rule_signature mpCyc.«match»⟩
           (getPresets mpCyc.params).length).2,
         none)) ∧
    (getPresets mpCyc.params ≠ [] →
      (getPresets mpCyc.params).get?
        (brokerCyc.cycle_manager.get_index
          ⟨"dev", match_rule_signature mpCyc.«match»⟩
          (getPresets mpCyc.params).length).1 = none →
      brokerCyc.invoke_action "dev" nOn mpCyc =
        ([],
         (brokerCyc.cycle_manager.get_index
           ⟨"dev", match_rule_signature mpCyc.«match»⟩
           (getPresets mpCyc.params).length).2,
         some "IndexError")) ∧
    (getPresets mpCyc.params = [] →
      brokerCyc.invoke_action "dev" nOn mpCyc =
        (runAction mpCyc.action okAction
          { ha := brokerCyc.ha_client, message := nOn, device_name := "dev",
            cycle_index := none, preset_value := none }
          (mpCyc.params.filter (fun p => !(p.1 = "presets"))),
         brokerCyc.cycle_manager, none))) :=
  ⟨rfl, rfl,
   invoke_action_cycling_selection brokerCyc "dev" nOn mpCyc okAction rfl rfl⟩

/-! ### A reachable uncaught IndexError (counterexamples for C2 and C5)

From a fresh broker, a fixed configuration with two cycling entries on
the same physical control (same signature — ranges do not participate —
hence the same cycle key) but different preset counts reaches a state
where the stored index is out of range for the smaller list: six presses
in the high value range pump the shared key's index to 5, a press on
another control moves `last_key` away, and the next press in the low
value range returns the stale index 5 into a 3-element preset list. -/

/-- High-value-range rule on controller 7. -/
def ccRuleHi : MatchRule :=
  { type := "control_change", control := some 7,
    value_min := some 11, value_max := some 127 }

/-- Low-value-range rule on the same controller 7: same signature as
`ccRuleHi`. -/
def ccRuleLo : MatchRule :=
  { type := "control_change", control := some 7,
    value_min := some 0, value_max := some 10 }

/-- Rule on a different controller, used to move `last_key` away. -/
def ccRule8 : MatchRule := { type := "control_change", control := some 8 }

/-- Wildcard control-change rule, bound last in the device list. -/
def ccRuleAny : MatchRule := { type := "control_change" }

/-- Cycling entry with six presets on the high range of controller 7. -/
def mpA : MappingEntry :=
  { «match» := ccRuleHi, action := "ok",
    params := [("presets", ParamValue.list
      [ParamValue.str "a0", ParamValue.str "a1", ParamValue.str "a2",
       ParamValue.str "a3", ParamValue.str "a4", ParamValue.str "a5"])],
    cycle := true }

/-- Cycling entry with three presets on the low range of controller 7;
shares its cycle key with `mpA`. -/
def mpB : MappingEntry :=
  { «match» := ccRuleLo, action := "ok",
    params := [("presets", ParamValue.list
      [ParamValue.str "b0", ParamValue.str "b1", ParamValue.str "b2"])],
    cycle := true }

/-- Cycling entry on controller 8. -/
def mpC8 : MappingEntry :=
  { «match» := ccRule8, action := "ok",
    params := [("presets", ParamValue.list
      [ParamValue.str "c0", ParamValue.str "c1"])],
    cycle := true }

/-- Plain matching entry placed after `mpB` in the device list. -/
def mpWild : MappingEntry := { «match» := ccRuleAny, action := "ok" }

/-- The fresh broker with the configuration above. -/
def brokerPump : MessageBroker :=
  { actions := [("ok", okAction)],
    mappings := [("dev", [mpA, mpB, mpC8, mpWild])],
    ha_client := none, cycle_manager := {} }

/-- High-range press on controller 7. -/
def eHi : MidiMessage := MidiMessage.controlChange 0 7 100

/-- Press on controller 8. -/
def eC : MidiMessage := MidiMessage.controlChange 0 8 0

/-- Low-range press on controller 7. -/
def eLo : MidiMessage := MidiMessage.controlChange 0 7 5

/-- Feed a sequence of events through `handle`, keeping the broker. -/
def handleSeq (b : MessageBroker) : List (String × MidiMessage) → MessageBroker
  | [] => b
  | (d, m) :: rest => handleSeq (b.handle d m).2.1 rest

/-- The broker state after six high-range presses and one press on
controller 8: the shared key stores index 5 and `last_key` is the
controller-8 key. -/
def afterPump : MessageBroker :=
  handleSeq brokerPump
    [("dev", eHi), ("dev", eHi), ("dev", eHi), ("dev", eHi), ("dev", eHi),
     ("dev", eHi), ("dev", eC)]

/-- Counterexample for C2 as originally stated: in the reachable state
`afterPump`, the low-range press matches both `mpB` and `mpWild` (whose
action is registered), yet `handle` emits only the event print — no
action is invoked for any matching entry — and the uncaught `IndexError`
escapes. -/
theorem handle_fanout_counterexample :
    matches_message mpWild.«match» eLo = true ∧
    assocFind afterPump.actions mpWild.action = some okAction ∧
    matches_message mpB.«match» eLo = true ∧
    (afterPump.handle "dev" eLo).1 = [LogEvent.printMessage "dev" eLo] ∧
    (afterPump.handle "dev" eLo).2.2 = some "IndexError" :=
  ⟨rfl, rfl, rfl, rfl, rfl⟩

/-- Counterexample for C5 as originally stated: in the reachable state
`afterPump`, dispatching the matched cycling entry `mpB` advances the
tracker, which returns the stale index 5 for its 3-element preset list;
no preset is selected and no action is invoked — the uncaught
`IndexError` escapes instead. -/
theorem invoke_action_cycling_counterexample :
    mpB.cycle = true ∧
    (getPresets mpB.params).length = 3 ∧
    assocFind afterPump.actions mpB.action = some okAction ∧
    (afterPump.cycle_manager.get_index
      ⟨"dev", match_rule_signature mpB.«match»⟩
      (getPresets mpB.params).length).1 = 5 ∧
    afterPump.invoke_action "dev" eLo mpB =
      ([],
       (afterPump.cycle_manager.get_index
         ⟨"dev", match_rule_signature mpB.«match»⟩
         (getPresets mpB.params).length).2,
       some "IndexError") :=
  ⟨rfl, rfl, rfl, rfl, rfl⟩

/-! ### Bounds on the cycle index (C10) -/

/-- Every index stored for `key` is below `n`. -/
def boundedAt (m : CycleManager) (key : CycleKey) (n : Nat) : Prop :=
  ∀ v, assocFind m.indices key = some v → v < n

theorem assocFind_assocSet_self {α β : Type} [DecidableEq α]
    (l : List (α × β)) (k : α) (v : β) :
    assocFind (assocSet l k v) k = some v := by
  induction l with
  | nil => simp [assocSet, assocFind]
  | cons p rest ih =>
    obtain ⟨k', v'⟩ := p
    by_cases h : k' = k <;> simp [assocSet, assocFind, h, ih]

theorem assocFind_assocSet_ne {α β : Type} [DecidableEq α]
    (l : List (α × β)) (k k' : α) (v : β) (h : k ≠ k') :
    assocFind (assocSet l k v) k' = assocFind l k' := by
  induction l with
  | nil => simp [assocSet, assocFind, h]
  | cons p rest ih =>
    obtain ⟨k₀, v₀⟩ := p
    by_cases h0 : k₀ = k
    · subst h0
      simp [assocSet, assocFind, h]
    · simp [assocSet, assocFind, h0, ih]

/-- C10: if every `get_index` call with key K uses the same count n > 0,
the returned index stays below n: the bound holds initially (nothing
stored), each call with K returns an index below n and preserves the
bound, calls with other keys also preserve it, and consequently the
`presets[cycle_index]` lookup that dispatch performs on a list of length
n is in bounds. -/
theorem cycle_index_in_bounds (m : CycleManager) (K : CycleKey) (n : Nat)
    (hn : 0 < n) (hb : boundedAt m K n) :
    (m.get_index K n).1 < n ∧
    boundedAt (m.get_index K n).2 K n ∧
    (∀ (J : CycleKey) (count : Nat), J ≠ K →
      boundedAt (m.get_index J count).2 K n) ∧
    (∀ presets : List ParamValue, presets.length = n →
      (presets.get? (m.get_index K n).1).isSome) := by
  have hn' : ¬ n = 0 := Nat.pos_iff_ne_zero.mp hn
  have main : (m.get_index K n).1 < n ∧ boundedAt (m.get_index K n).2 K n := by
    by_cases hlast : m.last_key = some K
    · -- consecutive press: the stored index advances modulo n
      by_cases hfound : (assocFind m.indices K).isSome <;>
      · simp only [CycleManager.get_index, if_neg hn', hfound, hlast, if_true,
          if_false, Bool.false_eq_true, assocFind_assocSet_self]
        refine ⟨by simpa using Nat.mod_lt _ hn, ?_⟩
        intro v hv
        simp [assocFind_assocSet_self] at hv
        subst hv
        exact Nat.mod_lt _ hn
    · -- not consecutive: the stored (or freshly initialized) index is returned
      by_cases hfound : (assocFind m.indices K).isSome
      · obtain ⟨v, hv⟩ := Option.isSome_iff_exists.mp hfound
        simp only [CycleManager.get_index, if_neg hn', hfound, hlast, if_true,
          if_false, Bool.false_eq_true]
        exact ⟨by simpa [hv] using hb v hv, hb⟩
      · simp only [CycleManager.get_index, if_neg hn', hfound, hlast, if_true,
          if_false, Bool.false_eq_true, assocFind_assocSet_self]
        refine ⟨by simpa using hn, ?_⟩
        intro v hv
        simp [assocFind_assocSet_self] at hv
        omega
  refine ⟨main.1, main.2, ?_, ?_⟩
  · intro J count hJ
    by_cases hc : count = 0
    · simpa [CycleManager.get_index, hc] using hb
    · intro v hv
      apply hb v
      by_cases hfound : (assocFind m.indices J).isSome <;>
        by_cases hlast : m.last_key = some J <;>
        simpa [CycleManager.get_index, hc, hfound, hlast,
          assocFind_assocSet_ne _ _ _ _ hJ] using hv
  · intro presets hlen
    cases hget : presets.get? (m.get_index K n).1 with
    | some _ => rfl
    | none =>
      have := List.get?_eq_none.mp hget
      omega

/-- Witness for C10 at the empty manager with count 2. -/
theorem cycle_index_in_bounds_witness :
    (0 < 2) ∧ boundedAt {} ⟨"dev", "sig"⟩ 2 ∧
    ((({} : CycleManager).get_index ⟨"dev", "sig"⟩ 2).1 < 2 ∧
     boundedAt (({} : CycleManager).get_index ⟨"dev", "sig"⟩ 2).2 ⟨"dev", "sig"⟩ 2 ∧
     (∀ (J : CycleKey) (count : Nat), J ≠ ⟨"dev", "sig"⟩ →
       boundedAt (({} : CycleManager).get_index J count).2 ⟨"dev", "sig"⟩ 2) ∧
     (∀ presets : List ParamValue, presets.length = 2 →
       (presets.get? (({} : CycleManager).get_index ⟨"dev", "sig"⟩ 2).1).isSome)) :=
  ⟨by norm_num, by intro v hv; simp [assocFind] at hv,
   cycle_index_in_bounds {} ⟨"dev", "sig"⟩ 2 (by norm_num)
     (by intro v hv; simp [assocFind] at hv)⟩

/-! ### Decimal printing facts, towards C4

The signature string concatenates the rule type with `ch`/`cc`/`n`/`p`
tags whose payloads are decimal renderings; the injectivity argument
needs that those renderings are nonempty, never contain the separator
`_`, and are injective. -/

theorem digitChar_isDigit (n : Nat) : (digitChar n).isDigit = true := by
  unfold digitChar
  split <;> try decide
  split <;> try decide
  split <;> try decide
  split <;> try decide
  split <;> try decide
  split <;> try decide
  split <;> try decide
  split <;> try decide
  split <;> decide

theorem digitChar_inj {a b : Nat} (ha : a < 10) (hb : b < 10)
    (h : digitChar a = digitChar b) : a = b := by
  interval_cases a <;> interval_cases b <;> revert h <;> decide

theorem natDigits_lt {n : Nat} (h : n < 10) : natDigits n = [digitChar n] := by
  simp [natDigits, natDigitsGo, h]

theorem natDigits_ge {n : Nat} (h : ¬ n < 10) :
    natDigits n = natDigits (n / 10) ++ [digitChar (n % 10)] := by
  show natDigitsGo (n + 1) n = natDigitsGo (n / 10 + 1) (n / 10) ++ [digitChar (n % 10)]
  rw [show natDigitsGo (n + 1) n =
      natDigitsGo n (n / 10) ++ [digitChar (n % 10)] from by simp [natDigitsGo, h]]
  rw [natDigitsGo_congr n (n / 10 + 1) (n / 10) (by omega) (by omega)]

theorem natDigits_ne_nil (n : Nat) : natDigits n ≠ [] := by
  by_cases h : n < 10
  · simp [natDigits_lt h]
  · simp [natDigits_ge h]

theorem mem_natDigits {c : Char} : ∀ {n : Nat}, c ∈ natDigits n → c.isDigit = true := by
  intro n
  induction n using Nat.strong_induction_on with
  | _ n ih =>
    intro hc
    by_cases h : n < 10
    · rw [natDigits_lt h] at hc
      simp at hc
      subst hc
      exact digitChar_isDigit n
    · rw [natDigits_ge h] at hc
      rcases List.mem_append.mp hc with hc | hc
      · exact ih (n / 10) (Nat.div_lt_self (by omega) (by omega)) hc
      · simp at hc
        subst hc
        exact digitChar_isDigit (n % 10)

theorem natDigits_inj : ∀ {m n : Nat}, natDigits m = natDigits n → m = n := by
  intro m
  induction m using Nat.strong_induction_on with
  | _ m ih =>
    intro n h
    by_cases hm : m < 10 <;> by_cases hn : n < 10
    · rw [natDigits_lt hm, natDigits_lt hn] at h
      simp at h
      exact digitChar_inj hm hn h
    · rw [natDigits_lt hm, natDigits_ge hn] at h
      have hlen := congrArg List.length h
      simp at hlen
      exact absurd hlen (natDigits_ne_nil _)
    · rw [natDigits_ge hm, natDigits_lt hn] at h
      have hlen := congrArg List.length h
      simp at hlen
      exact absurd hlen (natDigits_ne_nil _)
    · rw [natDigits_ge hm, natDigits_ge hn] at h
      have h2 := congrArg List.reverse h
      simp at h2
      have hmod : m % 10 = n % 10 :=
        digitChar_inj (Nat.mod_lt _ (by omega)) (Nat.mod_lt _ (by omega)) h2.1
      have hdiv : m / 10 = n / 10 :=
        ih (m / 10) (Nat.div_lt_self (by omega) (by omega)) h2.2
      omega

theorem intChars_ne_nil (i : Int) : intChars i ≠ [] := by
  by_cases h : i < 0 <;> simp [intChars, h, natDigits_ne_nil]

theorem mem_intChars {c : Char} {i : Int} (h : c ∈ intChars i) :
    c.isDigit = true ∨ c = '-' := by
  by_cases hi : i < 0 <;> simp [intChars, hi] at h
  · rcases h with h | h
    · exact Or.inr h
    · exact Or.inl (mem_natDigits h)
  · exact Or.inl (mem_natDigits h)

theorem sep_not_mem_intChars {i : Int} : '_' ∉ intChars i := by
  intro h
  rcases mem_intChars h with h2 | h2 <;> revert h2 <;> decide

theorem intChars_inj : ∀ {i j : Int}, intChars i = intChars j → i = j := by
  intro i j h
  by_cases hi : i < 0 <;> by_cases hj : j < 0 <;> simp [intChars, hi, hj] at h
  · have := natDigits_inj h
    omega
  · exfalso
    have hmem : '-' ∈ natDigits j.toNat := by
      rw [← h]
      simp
    have := mem_natDigits hmem
    revert this
    decide
  · exfalso
    have hmem : '-' ∈ natDigits i.toNat := by
      rw [h]
      simp
    have := mem_natDigits hmem
    revert this
    decide
  · have := natDigits_inj h
    omega

/-! ### Separator-based unique decomposition of the signature string -/

/-- The list is empty or starts with the separator `_`. -/
def sepHead (x : List Char) : Prop := x = [] ∨ x.head? = some '_'

/-- Splitting is unique: two decompositions into a separator-free part
followed by a part that is empty or separator-headed agree. -/
theorem split_at_sep :
    ∀ (a b x y : List Char), (∀ c ∈ a, c ≠ '_') → (∀ c ∈ b, c ≠ '_') →
      sepHead x → sepHead y → a ++ x = b ++ y → a = b ∧ x = y := by
  intro a
  induction a with
  | nil =>
    intro b x y _ hb hx _ h
    cases b with
    | nil => exact ⟨rfl, h⟩
    | cons d b' =>
      exfalso
      simp at h
      rcases hx with hx | hx
      · rw [hx] at h
        exact absurd h (by simp)
      · rw [h] at hx
        simp at hx
        exact hb d (by simp) hx
  | cons c a' ih =>
    intro b x y ha hb hx hy h
    cases b with
    | nil =>
      exfalso
      simp at h
      rcases hy with hy | hy
      · rw [hy] at h
        exact absurd h (by simp)
      · rw [← h] at hy
        simp at hy
        exact ha c (by simp) hy
    | cons d b' =>
      simp at h
      obtain ⟨hcd, hrest⟩ := h
      have := ih b' x y (fun e he => ha e (by simp [he]))
        (fun e he => hb e (by simp [he])) hx hy hrest
      exact ⟨by rw [hcd, this.1], this.2⟩

/-- Encoding of the optional tag tokens that follow the rule type in a
signature: each token is preceded by one separator. -/
def encTokens : List (List Char) → List Char
  | [] => []
  | t :: ts => '_' :: (t ++ encTokens ts)

theorem sepHead_encTokens (ts : List (List Char)) : sepHead (encTokens ts) := by
  cases ts with
  | nil => exact Or.inl rfl
  | cons t ts => exact Or.inr rfl

/-- The token encoding is injective on separator-free tokens. -/
theorem encTokens_inj :
    ∀ (ts1 ts2 : List (List Char)),
      (∀ t ∈ ts1, ∀ c ∈ t, c ≠ '_') → (∀ t ∈ ts2, ∀ c ∈ t, c ≠ '_') →
      encTokens ts1 = encTokens ts2 → ts1 = ts2 := by
  intro ts1
  induction ts1 with
  | nil =>
    intro ts2 _ _ h
    cases ts2 with
    | nil => rfl
    | cons t ts => exact absurd h (by simp [encTokens])
  | cons t1 rest1 ih =>
    intro ts2 h1 h2 h
    cases ts2 with
    | nil => exact absurd h (by simp [encTokens])
    | cons t2 rest2 =>
      simp only [encTokens, List.cons.injEq, true_and] at h
      have := split_at_sep t1 t2 (encTokens rest1) (encTokens rest2)
        (h1 t1 (by simp)) (h2 t2 (by simp))
        (sepHead_encTokens rest1) (sepHead_encTokens rest2) h
      have hrest := ih rest2 (fun t ht => h1 t (by simp [ht]))
        (fun t ht => h2 t (by simp [ht])) this.2
      rw [this.1, hrest]

/-! ### Comparable prefixes of equal concatenations -/

/-- Boolean list-prefix test. -/
def startsWithL : List Char → List Char → Bool
  | [], _ => true
  | _ :: _, [] => false
  | a :: as, b :: bs => a = b && startsWithL as bs

theorem startsWithL_comparable :
    ∀ (a b u v : List Char), a ++ u = b ++ v →
      startsWithL a b = true ∨ startsWithL b a = true := by
  intro a
  induction a with
  | nil => intro b u v _; exact Or.inl rfl
  | cons c as ih =>
    intro b u v h
    cases b with
    | nil => exact Or.inr rfl
    | cons d bs =>
      simp at h
      rcases ih bs u v h.2 with h2 | h2
      · exact Or.inl (by simp [startsWithL, h.1, h2])
      · exact Or.inr (by simp [startsWithL, h.1.symm, h2])

theorem append_left_cancelL :
    ∀ (a u v : List Char), a ++ u = a ++ v → u = v := by
  intro a
  induction a with
  | nil => intro u v h; exact h
  | cons c as ih =>
    intro u v h
    simp at h
    exact h

/-! ### The token structure of a signature -/

/-- The single tag token contributed by an optional rule field: the tag
prefix (`ch`, `cc`, `n` or `p`) followed by the decimal value, or no
token when the field is unset. -/
def tagToks (pre : List Char) (o : Option Int) : List (List Char) :=
  match o with
  | some i => [pre ++ intChars i]
  | none => []

/-- The tag tokens of a rule, in the fixed signature order. -/
def ruleTokens (r : MatchRule) : List (List Char) :=
  tagToks ['c', 'h'] r.channel ++ tagToks ['c', 'c'] r.control ++
  tagToks ['n'] r.note ++ tagToks ['p'] r.program

theorem mem_tagToks {pre : List Char} {o : Option Int} {t : List Char}
    (h : t ∈ tagToks pre o) : ∃ i, t = pre ++ intChars i := by
  cases o with
  | none => simp [tagToks] at h
  | some i =>
    simp [tagToks] at h
    exact ⟨i, h⟩

theorem ruleTokens_no_sep (r : MatchRule) :
    ∀ t ∈ ruleTokens r, ∀ c ∈ t, c ≠ '_' := by
  intro t ht c hc heq
  subst heq
  rcases List.mem_append.mp ht with h | hlast
  rcases List.mem_append.mp h with h | hnote
  rcases List.mem_append.mp h with hchan | hctl
  · obtain ⟨i, rfl⟩ := mem_tagToks hchan
    rcases List.mem_append.mp hc with h2 | h2
    · revert h2; decide
    · exact sep_not_mem_intChars h2
  · obtain ⟨i, rfl⟩ := mem_tagToks hctl
    rcases List.mem_append.mp hc with h2 | h2
    · revert h2; decide
    · exact sep_not_mem_intChars h2
  · obtain ⟨i, rfl⟩ := mem_tagToks hnote
    rcases List.mem_append.mp hc with h2 | h2
    · revert h2; decide
    · exact sep_not_mem_intChars h2
  · obtain ⟨i, rfl⟩ := mem_tagToks hlast
    rcases List.mem_append.mp hc with h2 | h2
    · revert h2; decide
    · exact sep_not_mem_intChars h2

/-- Strip a leading `ch` token, if any. -/
def parseCh : List (List Char) → Option (List Char) × List (List Char)
  | ('c' :: 'h' :: cs) :: rest => (some cs, rest)
  | ts => (none, ts)

/-- Strip a leading `cc` token, if any. -/
def parseCc : List (List Char) → Option (List Char) × List (List Char)
  | ('c' :: 'c' :: cs) :: rest => (some cs, rest)
  | ts => (none, ts)

/-- Strip a leading `n` token, if any. -/
def parseN : List (List Char) → Option (List Char) × List (List Char)
  | ('n' :: cs) :: rest => (some cs, rest)
  | ts => (none, ts)

/-- Strip a leading `p` token, if any. -/
def parseP : List (List Char) → Option (List Char) × List (List Char)
  | ('p' :: cs) :: rest => (some cs, rest)
  | ts => (none, ts)

theorem parseCh_ruleTokens (r : MatchRule) :
    parseCh (ruleTokens r) =
      (r.channel.map intChars,
       tagToks ['c', 'c'] r.control ++ tagToks ['n'] r.note ++
         tagToks ['p'] r.program) := by
  cases hc : r.channel
  · cases hcc : r.control <;> cases hn : r.note <;> cases hp : r.program <;>
      (simp only [ruleTokens]; rw [hc, hcc, hn, hp]; rfl)
  · simp only [ruleTokens]
    rw [hc]
    rfl

theorem parseCc_toks (o2 o3 o4 : Option Int) :
    parseCc (tagToks ['c', 'c'] o2 ++ tagToks ['n'] o3 ++ tagToks ['p'] o4) =
      (o2.map intChars, tagToks ['n'] o3 ++ tagToks ['p'] o4) := by
  cases o2
  · cases o3 <;> cases o4 <;> rfl
  · rfl

theorem parseN_toks (o3 o4 : Option Int) :
    parseN (tagToks ['n'] o3 ++ tagToks ['p'] o4) =
      (o3.map intChars, tagToks ['p'] o4) := by
  cases o3
  · cases o4 <;> rfl
  · rfl

theorem parseP_toks (o4 : Option Int) :
    parseP (tagToks ['p'] o4) = (o4.map intChars, []) := by
  cases o4 <;> rfl

/-- Equal token lists force equal optional fields. -/
theorem ruleTokens_inj {r1 r2 : MatchRule} (h : ruleTokens r1 = ruleTokens r2) :
    r1.channel = r2.channel ∧ r1.control = r2.control ∧
    r1.note = r2.note ∧ r1.program = r2.program := by
  have hintj : Function.Injective intChars := fun a b hab => intChars_inj hab
  have h1 := congrArg parseCh h
  rw [parseCh_ruleTokens, parseCh_ruleTokens, Prod.mk.injEq] at h1
  obtain ⟨hch, hrest1⟩ := h1
  have h2 := congrArg parseCc hrest1
  rw [parseCc_toks, parseCc_toks, Prod.mk.injEq] at h2
  obtain ⟨hcc, hrest2⟩ := h2
  have h3 := congrArg parseN hrest2
  rw [parseN_toks, parseN_toks, Prod.mk.injEq] at h3
  obtain ⟨hn, hrest3⟩ := h3
  have h4 := congrArg parseP hrest3
  rw [parseP_toks, parseP_toks, Prod.mk.injEq] at h4
  exact ⟨Option.map_injective hintj hch, Option.map_injective hintj hcc,
    Option.map_injective hintj hn, Option.map_injective hintj h4.1⟩

/-! ### From the signature string to its token decomposition -/

theorem data_sep : ("_" : String).data = ['_'] := rfl

theorem data_intStr (i : Int) : (intStr i).data = intChars i := rfl

theorem strJoin_data (p : String) (ps : List String) :
    (strJoin "_" (p :: ps)).data = p.data ++ encTokens (ps.map String.data) := by
  induction ps generalizing p with
  | nil => simp [strJoin, encTokens]
  | cons q ps ih =>
    show (strJoin "_" (p :: q :: ps)).data = _
    rw [show strJoin "_" (p :: q :: ps) = p ++ "_" ++ strJoin "_" (q :: ps) from rfl]
    simp only [String.data_append, ih q, data_sep, List.map, encTokens]
    simp

/-- The characters of a signature: the rule type followed by the
separator-encoded tag tokens. -/
theorem sig_data (r : MatchRule) :
    (match_rule_signature r).data = r.type.data ++ encTokens (ruleTokens r) := by
  cases hc : r.channel <;> cases hcc : r.control <;>
    cases hn : r.note <;> cases hp : r.program <;>
    simp [match_rule_signature, ruleTokens, tagToks, hc, hcc, hn, hp,
      strJoin_data, encTokens, String.data_append, data_intStr,
      show ("ch" : String).data = ['c', 'h'] from rfl,
      show ("cc" : String).data = ['c', 'c'] from rfl,
      show ("n" : String).data = ['n'] from rfl,
      show ("p" : String).data = ['p'] from rfl]

/-- The rule type is one of the five kinds the data model admits. -/
def validType (t : String) : Prop :=
  t = "control_change" ∨ t = "note_on" ∨ t = "note_off" ∨
  t = "program_change" ∨ t = "pitchwheel"

/-- C4: two rules whose types are event kinds have equal signatures
exactly when their types, presence and values of channel, control, note
and program all agree; the four range fields never influence the
signature (they do not appear on the right-hand side). -/
theorem signature_eq_iff (r1 r2 : MatchRule)
    (h1 : validType r1.type) (h2 : validType r2.type) :
    match_rule_signature r1 = match_rule_signature r2 ↔
      (r1.type = r2.type ∧ r1.channel = r2.channel ∧ r1.control = r2.control ∧
       r1.note = r2.note ∧ r1.program = r2.program) := by
  constructor
  · intro h
    have hdata := congrArg String.data h
    rw [sig_data, sig_data] at hdata
    have key : r1.type = r2.type ∧
        encTokens (ruleTokens r1) = encTokens (ruleTokens r2) := by
      rcases startsWithL_comparable _ _ _ _ hdata with hsw | hsw <;>
        rcases h1 with h1 | h1 | h1 | h1 | h1 <;>
        rcases h2 with h2 | h2 | h2 | h2 | h2 <;>
        rw [h1, h2] at hsw <;>
        first
        | exact absurd hsw (by decide)
        | exact ⟨h1.trans h2.symm,
            append_left_cancelL _ _ _ (by rw [h1, h2] at hdata; exact hdata)⟩
    have htoks := encTokens_inj _ _ (ruleTokens_no_sep r1) (ruleTokens_no_sep r2) key.2
    obtain ⟨hch, hcc, hn, hp⟩ := ruleTokens_inj htoks
    exact ⟨key.1, hch, hcc, hn, hp⟩
  · intro ⟨ht, hch, hcc, hn, hp⟩
    simp only [match_rule_signature]
    rw [ht, hch, hcc, hn, hp]

/-- Two control-change rules agreeing on channel and control but with
different value ranges, used to witness C4. -/
def rangeRuleA : MatchRule :=
  { type := "control_change", channel := some 1, control := some 7,
    value_min := some 10, value_max := some 20 }

/-- Same physical control as `rangeRuleA`, different ranges. -/
def rangeRuleB : MatchRule :=
  { type := "control_change", channel := some 1, control := some 7,
    value_min := some 0, value_max := some 127 }

/-- Witness for C4 at two concrete rules differing only in ranges. -/
theorem signature_eq_iff_witness :
    validType rangeRuleA.type ∧ validType rangeRuleB.type ∧
    (match_rule_signature rangeRuleA = match_rule_signature rangeRuleB ↔
      (rangeRuleA.type = rangeRuleB.type ∧
       rangeRuleA.channel = rangeRuleB.channel ∧
       rangeRuleA.control = rangeRuleB.control ∧
       rangeRuleA.note = rangeRuleB.note ∧
       rangeRuleA.program = rangeRuleB.program)) :=
  ⟨Or.inl rfl, Or.inl rfl,
   signature_eq_iff rangeRuleA rangeRuleB (Or.inl rfl) (Or.inl rfl)⟩

end QuadCortex
